import Mathlib

/-!
Verification development for the art-vector backend (`src/backend/app.py`,
`src/backend/embedding.py`).

The backend stores museum objects in a SQLite table `objects` (integer
AUTOINCREMENT primary key `id`, unique `object_uid`, display fields, a JSON
`raw_metadata` column, and a JSON-encoded `embedding` column that is NULL
while the object is pending).  We embed the store as a list of `Obj` records
kept in insertion (`id`) order, with JSON rows as ordered association lists
(Python dicts preserve insertion order and `json.dumps`/`json.loads` round-trip
it).  Embedding vectors are lists of rationals: the real implementation uses
float32 tensors, and the claims under study concern control flow, counting,
ordering and exact dot-product algebra, none of which depend on rounding.

The external sentence-transformers model (`embedding.py:embed_texts`) is a
parameter: for batch processing it is a fallible function
`List String → Option (List Vec)` (an exception in Python is `none` here), and
for searching the already-computed query vector is passed in directly.

`torch.argsort(descending=True)` is called without the `stable` flag, so the
order of equal elements is unspecified.  We model its output relationally:
`IsArgsortDesc scores perm` holds for every permutation of the index range
that lists the scores in non-increasing order, and theorems about
`search_text` quantify over (or exhibit) such permutations.
-/

namespace ArtVector

/-- A parsed JSON object (one CSV row), as an ordered association list. -/
abbrev Row := List (String × String)

/-- An embedding vector (`json.loads` of the `embedding` column). -/
abbrev Vec := List ℚ

/-- One row of the `objects` table (`src/backend/app.py`, `init_db`). -/
structure Obj where
  id : ℕ
  object_uid : String
  dataset_id : String
  original_id : String
  title : Option String
  artist : Option String
  image_url : Option String
  has_image : Bool
  raw_metadata : Row
  embedding : Option Vec
deriving DecidableEq

/-- `row.get(key)`: first value bound to `key`, or `None`. -/
def rowGet (row : Row) (key : String) : Option String :=
  (row.find? (fun p => p.1 == key)).map (fun p => p.2)

/-- The fixed key list iterated by `build_object_text`
(`src/backend/app.py` lines 184-193). -/
def priorityKeys : List String :=
  ["Title", "ObjectName", "Artist", "Maker", "Culture", "Medium",
   "Classification", "Department"]

/-- `[str(v) for v in row.values() if v]` joined is the fallback text;
this is the list of non-empty values in row order. -/
def truthyVals (row : Row) : List String :=
  (row.map (fun p => p.2)).filter (fun v => v ≠ "")

/-- `build_object_text` (`src/backend/app.py` lines 178-202): append the value
of each key of `priorityKeys` that is present and non-empty (Python
truthiness on strings); if no part was collected, fall back to the single
string joining all non-empty raw values with `" "`; join parts with `" | "`. -/
def buildObjectText (row : Row) : String :=
  let parts := priorityKeys.filterMap (fun k =>
    match rowGet row k with
    | some v => if v = "" then none else some v
    | none => none)
  let parts' := if parts.isEmpty then [String.intercalate " " (truthyVals row)] else parts
  String.intercalate " | " parts'

/-- Number of pending objects: `SELECT COUNT(*) FROM objects WHERE embedding IS NULL`. -/
def pendingCount (store : List Obj) : ℕ :=
  store.countP (fun o => o.embedding.isNone)

/-- Result record of the `/job_status` endpoint. -/
structure JobStatus where
  total : ℕ
  embedded : ℕ
  remaining : ℕ
  percent : ℚ
deriving DecidableEq

/-- `job_status` (`src/backend/app.py` lines 376-399): `total` is the full
object count, `remaining` counts NULL embeddings, `embedded = total - remaining`
(never negative since `remaining ≤ total`), `percent` is the embedded share. -/
def job_status (store : List Obj) : JobStatus :=
  let total := store.length
  let remaining := pendingCount store
  let embedded := total - remaining
  { total := total
    embedded := embedded
    remaining := remaining
    percent := if 0 < total then (embedded : ℚ) / (total : ℚ) * 100 else 0 }

/-- Insert an object into a list sorted by ascending `id`. -/
def insertById (o : Obj) : List Obj → List Obj
  | [] => [o]
  | x :: xs => if o.id ≤ x.id then o :: x :: xs else x :: insertById o xs

/-- Sort a list of objects by ascending `id` (`ORDER BY id ASC`). -/
def sortById : List Obj → List Obj
  | [] => []
  | x :: xs => insertById x (sortById xs)

/-- The pending objects in ascending `id` order
(`SELECT ... WHERE embedding IS NULL ORDER BY id ASC`). -/
def pendingRows (store : List Obj) : List Obj :=
  sortById (store.filter (fun o => o.embedding.isNone))

/-- The batch selected by `process_batch`: first `batch_size` pending rows
(`LIMIT ?`). -/
def batchRows (store : List Obj) (batch_size : ℕ) : List Obj :=
  (pendingRows store).take batch_size

/-- `texts = [build_object_text(m) for m in metas]` for the selected batch. -/
def batchTexts (store : List Obj) (batch_size : ℕ) : List String :=
  (batchRows store batch_size).map (fun o => buildObjectText o.raw_metadata)

/-- One `UPDATE objects SET embedding = ? WHERE id = ?` applied to one row. -/
def applyUpd1 (o : Obj) (u : ℕ × Vec) : Obj :=
  if o.id = u.1 then { o with embedding := some u.2 } else o

/-- The update loop of `process_batch` (lines 334-339): each `(id, vec)` pair
is written in turn; all writes become visible together at `conn.commit()`. -/
def applyUpdates (store : List Obj) (upds : List (ℕ × Vec)) : List Obj :=
  upds.foldl (fun st u => st.map (fun o => applyUpd1 o u)) store

/-- The external embedding model for a batch: `embed_texts` either returns one
vector per text or raises (modelled as `none`). -/
abbrev Model := List String → Option (List Vec)

/-- Errors surfaced by the endpoints. -/
inductive BatchError
  | embeddingModelFailure
deriving DecidableEq

/-- The `example_object` preview built from the first row of a batch
(`src/backend/app.py` lines 349-363). -/
structure ExampleObject where
  dataset_id : String
  original_id : String
  title : Option String
  artist : Option String
  image_url : Option String
  has_image : Bool
  preview_text : String
  metadata : Row
deriving DecidableEq

/-- Build the preview from the first selected row, `None` if the batch is empty. -/
def mkExample : List Obj → Option ExampleObject
  | [] => none
  | first :: _ =>
    some { dataset_id := first.dataset_id
           original_id := first.original_id
           title := first.title
           artist := first.artist
           image_url := first.image_url
           has_image := first.has_image
           preview_text := buildObjectText first.raw_metadata
           metadata := first.raw_metadata }

/-- Response record of `/process_batch`. -/
structure BatchReport where
  embedded_this_batch : ℕ
  remaining : ℕ
  total : ℕ
  done : Bool
  example_object : Option ExampleObject
deriving DecidableEq

/-- `process_batch` (`src/backend/app.py` lines 286-373).  Returns the store
after the call together with the endpoint's response (or the propagated
exception).  If nothing is pending it returns early with all-zero counts
(including the hard-coded `"total": 0`).  Otherwise it selects the batch,
builds the texts, calls the model once; a model failure propagates before
`conn.commit()`, so the store is returned unchanged.  On success the zipped
`(id, vector)` pairs are written and committed, and the counts are recomputed
from the updated store. -/
def process_batch (model : Model) (store : List Obj) (batch_size : ℕ) :
    List Obj × Except BatchError BatchReport :=
  if pendingCount store = 0 then
    (store, .ok { embedded_this_batch := 0, remaining := 0, total := 0,
                  done := true, example_object := none })
  else
    match model (batchTexts store batch_size) with
    | none => (store, .error .embeddingModelFailure)
    | some embeddings =>
      (applyUpdates store (((batchRows store batch_size).map (fun o => o.id)).zip embeddings),
       .ok { embedded_this_batch := ((batchRows store batch_size).map (fun o => o.id)).length
             remaining := pendingCount (applyUpdates store
               (((batchRows store batch_size).map (fun o => o.id)).zip embeddings))
             total := (applyUpdates store
               (((batchRows store batch_size).map (fun o => o.id)).zip embeddings)).length
             done := pendingCount (applyUpdates store
               (((batchRows store batch_size).map (fun o => o.id)).zip embeddings)) == 0
             example_object := mkExample (batchRows store batch_size) })

/-- A sequence of `process_batch` calls (each with its own model outcome and
batch size), threading the store. -/
def runBatches (store : List Obj) (calls : List (Model × ℕ)) : List Obj :=
  calls.foldl (fun st c => (process_batch c.1 st c.2).1) store

/-- Error surfaced by `/search_text`. -/
inductive SearchError
  | invalidQuery
deriving DecidableEq

instance {ε α : Type} [DecidableEq ε] [DecidableEq α] : DecidableEq (Except ε α) := fun
  | .error e, .error f =>
    if h : e = f then .isTrue (by rw [h]) else .isFalse (by intro hc; cases hc; exact h rfl)
  | .error _, .ok _ => .isFalse (by intro hc; cases hc)
  | .ok _, .error _ => .isFalse (by intro hc; cases hc)
  | .ok a, .ok b =>
    if h : a = b then .isTrue (by rw [h]) else .isFalse (by intro hc; cases hc; exact h rfl)

/-- Dot product of two vectors (`torch.matmul` row-wise); zipWith truncates at
the shorter length, as tensor semantics never mixes lengths in this code. -/
def dotQ (x y : Vec) : ℚ :=
  (List.zipWith (fun a b => a * b) x y).sum

/-- The rows fetched by the scoped SELECT of `search_text`
(lines 486-495): embedded only, optional dataset filter, optional image
filter; row order is the table's insertion order. -/
def scopeRows (store : List Obj) (dataset_id : Option String) (images_only : Bool) :
    List Obj :=
  store.filter (fun o =>
    o.embedding.isSome &&
    (match dataset_id with
     | some d => o.dataset_id == d
     | none => true) &&
    (!images_only || o.has_image))

/-- `scores = torch.matmul(obj_tensor, query_emb)`: one dot product per row. -/
def rowScores (rows : List Obj) (query_emb : Vec) : List ℚ :=
  rows.map (fun o => dotQ (o.embedding.getD []) query_emb)

/-- Python slice `l[:k]` for an integer `k`: a non-negative `k` keeps the first
`k` elements; a negative `k` drops the last `-k`. -/
def pySlice {α : Type} (l : List α) (k : ℤ) : List α :=
  if 0 ≤ k then l.take k.toNat else l.take (l.length - (-k).toNat)

/-- Specification of `scores.argsort(descending=True)`: `perm` is a
permutation of the index range that lists the scores in non-increasing order.
The `stable` flag is not passed in the source, so the relative order of equal
scores is unspecified: any such `perm` is a possible output. -/
def IsArgsortDesc (scores : List ℚ) (perm : List ℕ) : Prop :=
  perm.Perm (List.range scores.length) ∧
  List.Chain' (fun i j => scores.getD j 0 ≤ scores.getD i 0) perm

instance (scores : List ℚ) (perm : List ℕ) : Decidable (IsArgsortDesc scores perm) :=
  inferInstanceAs (Decidable (_ ∧ _))

/-- A default object for out-of-range index access (never reached when the
index permutation is valid). -/
def dummyObj : Obj :=
  { id := 0, object_uid := "", dataset_id := "", original_id := "",
    title := none, artist := none, image_url := none, has_image := false,
    raw_metadata := [], embedding := none }

/-- `search_text` (`src/backend/app.py` lines 473-537), parameterised by the
query's embedding vector `query_emb` and by one admissible argsort output
`perm` (see `IsArgsortDesc`).  `if not q` rejects exactly the empty string;
then the scoped rows are fetched, an empty scope short-circuits to `[]`,
otherwise the scores are sliced by `indices = argsort[:limit]` and assembled
into `(score, object)` pairs. -/
def search_text (store : List Obj) (q : String) (query_emb : Vec) (limit : ℤ)
    (dataset_id : Option String) (images_only : Bool) (perm : List ℕ) :
    Except SearchError (List (ℚ × Obj)) :=
  if q = "" then .error .invalidQuery
  else if (scopeRows store dataset_id images_only).isEmpty then .ok []
  else .ok ((pySlice perm limit).map (fun i =>
    ((rowScores (scopeRows store dataset_id images_only) query_emb).getD i 0,
     (scopeRows store dataset_id images_only).getD i dummyObj)))

/-- Number of store rows retrieved by one `search_text` call: the code holds
no cache of any kind, so whenever the query is non-empty the SELECT runs and
fetches every embedded row in scope; only the empty-query rejection happens
before the store is touched. -/
def searchFetchCount (store : List Obj) (q : String) (dataset_id : Option String)
    (images_only : Bool) : ℕ :=
  if q = "" then 0 else (scopeRows store dataset_id images_only).length

/-- Total rows fetched by a sequence of searches against an unchanged store:
`search_text` keeps no state between calls, so the per-call counts add up. -/
def totalFetches (store : List Obj) (qs : List String) (dataset_id : Option String)
    (images_only : Bool) : ℕ :=
  (qs.map (fun q => searchFetchCount store q dataset_id images_only)).sum

/-- The ordering claimed by the specification: scores strictly decreasing, or
equal scores broken by ascending insertion order (`id`). -/
def DescWithInsertionTieBreak (res : List (ℚ × Obj)) : Prop :=
  List.Chain' (fun a b => b.1 < a.1 ∨ (a.1 = b.1 ∧ a.2.id < b.2.id)) res

instance (res : List (ℚ × Obj)) : Decidable (DescWithInsertionTieBreak res) :=
  inferInstanceAs (Decidable (List.Chain' _ _))

/-! ### Helper lemmas about the batch machinery -/

theorem insertById_perm (o : Obj) (l : List Obj) :
    List.Perm (insertById o l) (o :: l) := by
  induction l with
  | nil => exact List.Perm.refl _
  | cons x xs ih =>
    by_cases h : o.id ≤ x.id
    · simp [insertById, h]
    · simp only [insertById, if_neg h]
      exact (List.Perm.cons x ih).trans (List.Perm.swap o x xs)

theorem sortById_perm (l : List Obj) : List.Perm (sortById l) l := by
  induction l with
  | nil => exact List.Perm.refl _
  | cons x xs ih =>
    exact (insertById_perm x (sortById xs)).trans (List.Perm.cons x ih)

theorem mem_pendingRows {store : List Obj} {o : Obj} (h : o ∈ pendingRows store) :
    o ∈ store ∧ o.embedding = none := by
  have h' : o ∈ store.filter (fun o => o.embedding.isNone) :=
    ((sortById_perm _).mem_iff).1 h
  have := List.mem_filter.1 h'
  refine ⟨this.1, ?_⟩
  have hb := this.2
  cases he : o.embedding with
  | none => rfl
  | some v => rw [he] at hb; simp [Option.isNone] at hb

theorem mem_batchRows {store : List Obj} {bs : ℕ} {o : Obj}
    (h : o ∈ batchRows store bs) : o ∈ store ∧ o.embedding = none :=
  mem_pendingRows (List.take_subset _ _ h)

theorem batchRows_ids_nodup {store : List Obj} (bs : ℕ)
    (hnodup : (store.map (fun o => o.id)).Nodup) :
    ((batchRows store bs).map (fun o => o.id)).Nodup := by
  have h1 : ((store.filter (fun o => o.embedding.isNone)).map (fun o => o.id)).Nodup :=
    hnodup.sublist ((List.filter_sublist store).map _)
  have h2 : ((pendingRows store).map (fun o => o.id)).Nodup :=
    (((sortById_perm _).map _).nodup_iff).2 h1
  exact h2.sublist ((List.take_sublist _ _).map _)

theorem nodup_ids_inj {store : List Obj} (hnodup : (store.map (fun o => o.id)).Nodup)
    {a b : Obj} (ha : a ∈ store) (hb : b ∈ store) (hid : a.id = b.id) : a = b := by
  induction store with
  | nil => cases ha
  | cons x xs ih =>
    simp only [List.map_cons, List.nodup_cons] at hnodup
    rcases List.mem_cons.1 ha with rfl | ha' <;>
      rcases List.mem_cons.1 hb with rfl | hb'
    · rfl
    · exact absurd (hid ▸ List.mem_map_of_mem (fun o => o.id) hb') hnodup.1
    · exact absurd (hid ▸ List.mem_map_of_mem (fun o => o.id) ha') hnodup.1
    · exact ih hnodup.2 ha' hb'

theorem applyUpdates_eq_map (store : List Obj) (upds : List (ℕ × Vec)) :
    applyUpdates store upds = store.map (fun o => upds.foldl applyUpd1 o) := by
  induction upds generalizing store with
  | nil => simp [applyUpdates]
  | cons u rest ih =>
    show applyUpdates (store.map (fun o => applyUpd1 o u)) rest = _
    rw [ih, List.map_map]
    rfl

theorem foldl_applyUpd1_id (upds : List (ℕ × Vec)) (o : Obj) :
    (upds.foldl applyUpd1 o).id = o.id := by
  induction upds generalizing o with
  | nil => rfl
  | cons u rest ih =>
    show (rest.foldl applyUpd1 (applyUpd1 o u)).id = o.id
    rw [ih]
    unfold applyUpd1
    split <;> rfl

theorem foldl_applyUpd1_of_not_mem {upds : List (ℕ × Vec)} {o : Obj}
    (h : o.id ∉ upds.map Prod.fst) : upds.foldl applyUpd1 o = o := by
  induction upds with
  | nil => rfl
  | cons u rest ih =>
    simp only [List.map_cons, List.mem_cons, not_or] at h
    show rest.foldl applyUpd1 (applyUpd1 o u) = o
    rw [show applyUpd1 o u = o from if_neg h.1]
    exact ih h.2

theorem foldl_applyUpd1_isSome {upds : List (ℕ × Vec)} {o : Obj}
    (h : o.embedding.isSome) : ((upds.foldl applyUpd1 o).embedding).isSome := by
  induction upds generalizing o with
  | nil => exact h
  | cons u rest ih =>
    show ((rest.foldl applyUpd1 (applyUpd1 o u)).embedding).isSome
    unfold applyUpd1
    split
    · exact ih (by simp)
    · exact ih h

theorem foldl_applyUpd1_isSome_of_mem {upds : List (ℕ × Vec)} {o : Obj}
    (h : o.id ∈ upds.map Prod.fst) : ((upds.foldl applyUpd1 o).embedding).isSome := by
  induction upds generalizing o with
  | nil => cases h
  | cons u rest ih =>
    show ((rest.foldl applyUpd1 (applyUpd1 o u)).embedding).isSome
    by_cases hid : o.id = u.1
    · rw [show applyUpd1 o u = { o with embedding := some u.2 } from if_pos hid]
      exact foldl_applyUpd1_isSome (by simp)
    · rw [show applyUpd1 o u = o from if_neg hid]
      simp only [List.map_cons, List.mem_cons] at h
      exact ih (h.resolve_left hid)

/-- Objects whose embedding is already set are untouched by a batch's writes:
the batch only targets ids selected among pending rows. -/
theorem process_batch_preserves_embedded {model : Model} {store : List Obj} {bs : ℕ}
    (hnodup : (store.map (fun o => o.id)).Nodup)
    {o : Obj} (ho : o ∈ store) (hsome : o.embedding.isSome) :
    o ∈ (process_batch model store bs).1 := by
  unfold process_batch
  by_cases hrem : pendingCount store = 0
  · simpa [hrem]
  · simp only [if_neg hrem]
    cases hm : model (batchTexts store bs) with
    | none => simpa
    | some embs =>
      simp only
      rw [applyUpdates_eq_map]
      have hnotmem : o.id ∉ ((((batchRows store bs).map (fun o => o.id)).zip embs).map Prod.fst) := by
        intro hmem
        rcases List.mem_map.1 hmem with ⟨p, hp, hpfst⟩
        have hsub : o.id ∈ (batchRows store bs).map (fun o => o.id) :=
          hpfst ▸ (List.of_mem_zip hp).1
        rcases List.mem_map.1 hsub with ⟨b, hb, hbid⟩
        rcases mem_batchRows hb with ⟨hbstore, hbnone⟩
        have hbo : b = o := nodup_ids_inj hnodup hbstore ho hbid
        rw [hbo] at hbnone
        rw [hbnone] at hsome
        simp at hsome
      have hfix : (((batchRows store bs).map (fun o => o.id)).zip embs).foldl applyUpd1 o = o :=
        foldl_applyUpd1_of_not_mem hnotmem
      have hmm := List.mem_map_of_mem
        (fun o => ((((batchRows store bs).map (fun o => o.id)).zip embs)).foldl applyUpd1 o) ho
      simp only at hmm
      rw [hfix] at hmm
      exact hmm

/-- A batch call never changes the multiset of ids in the store. -/
theorem process_batch_map_id (model : Model) (store : List Obj) (bs : ℕ) :
    ((process_batch model store bs).1).map (fun o => o.id) = store.map (fun o => o.id) := by
  unfold process_batch
  by_cases hrem : pendingCount store = 0
  · simp [hrem]
  · simp only [if_neg hrem]
    cases hm : model (batchTexts store bs) with
    | none => simp
    | some embs =>
      simp only
      rw [applyUpdates_eq_map, List.map_map]
      exact List.map_congr_left (fun o _ => foldl_applyUpd1_id _ o)

/-- Across any sequence of `process_batch` calls, an embedded object is
preserved verbatim (its vector is never overwritten or reset). -/
theorem runBatches_preserves_embedded {store : List Obj}
    (hnodup : (store.map (fun o => o.id)).Nodup) (calls : List (Model × ℕ))
    {o : Obj} (ho : o ∈ store) (hsome : o.embedding.isSome) :
    o ∈ runBatches store calls := by
  induction calls generalizing store with
  | nil => exact ho
  | cons c rest ih =>
    show o ∈ runBatches (process_batch c.1 store c.2).1 rest
    have hnodup' : (((process_batch c.1 store c.2).1).map (fun o => o.id)).Nodup := by
      rw [process_batch_map_id]; exact hnodup
    exact ih hnodup' (process_batch_preserves_embedded hnodup ho hsome)

/-! ### Helper lemmas about dot products and slicing -/

theorem dotQ_eq_sum_range (x y : Vec) :
    dotQ x y = ∑ i ∈ Finset.range (min x.length y.length), x.getD i 0 * y.getD i 0 := by
  induction x generalizing y with
  | nil => simp [dotQ]
  | cons a xs ih =>
    cases y with
    | nil => simp [dotQ]
    | cons b ys =>
      show a * b + dotQ xs ys = _
      rw [ih ys]
      simp only [List.length_cons, Nat.succ_min_succ, Finset.sum_range_succ']
      simp [add_comm]

theorem dotQ_self_nonneg (x : Vec) : 0 ≤ dotQ x x := by
  rw [dotQ_eq_sum_range]
  exact Finset.sum_nonneg (fun i _ => mul_self_nonneg _)

/-- Cauchy-Schwarz for the truncating dot product. -/
theorem dotQ_mul_self_le (x y : Vec) :
    dotQ x y * dotQ x y ≤ dotQ x x * dotQ y y := by
  set m := min x.length y.length with hm
  have hx : ∑ i ∈ Finset.range m, x.getD i 0 * x.getD i 0 ≤ dotQ x x := by
    rw [dotQ_eq_sum_range, min_self]
    exact Finset.sum_le_sum_of_subset_of_nonneg
      (Finset.range_subset.2 (hm ▸ min_le_left _ _))
      (fun i _ _ => mul_self_nonneg _)
  have hy : ∑ i ∈ Finset.range m, y.getD i 0 * y.getD i 0 ≤ dotQ y y := by
    rw [dotQ_eq_sum_range, min_self]
    exact Finset.sum_le_sum_of_subset_of_nonneg
      (Finset.range_subset.2 (hm ▸ min_le_right _ _))
      (fun i _ _ => mul_self_nonneg _)
  have hcs := Finset.sum_mul_sq_le_sq_mul_sq (Finset.range m)
    (fun i => x.getD i 0) (fun i => y.getD i 0)
  simp only [pow_two] at hcs
  have hxn : 0 ≤ ∑ i ∈ Finset.range m, x.getD i 0 * x.getD i 0 :=
    Finset.sum_nonneg (fun i _ => mul_self_nonneg _)
  have hyy : 0 ≤ dotQ y y := dotQ_self_nonneg y
  calc dotQ x y * dotQ x y
      = (∑ i ∈ Finset.range m, x.getD i 0 * y.getD i 0) *
        (∑ i ∈ Finset.range m, x.getD i 0 * y.getD i 0) := by rw [dotQ_eq_sum_range]
    _ ≤ (∑ i ∈ Finset.range m, x.getD i 0 * x.getD i 0) *
        (∑ i ∈ Finset.range m, y.getD i 0 * y.getD i 0) := hcs
    _ ≤ (∑ i ∈ Finset.range m, x.getD i 0 * x.getD i 0) * dotQ y y :=
        mul_le_mul_of_nonneg_left hy hxn
    _ ≤ dotQ x x * dotQ y y := mul_le_mul_of_nonneg_right hx hyy

/-- If both vectors are unit-norm in the exact sense `⟪v, v⟫ = 1`, the dot
product lies in the closed interval `[-1, 1]`. -/
theorem dotQ_mem_Icc_of_unit {x y : Vec} (hx : dotQ x x = 1) (hy : dotQ y y = 1) :
    -1 ≤ dotQ x y ∧ dotQ x y ≤ 1 := by
  have h := dotQ_mul_self_le x y
  rw [hx, hy, one_mul] at h
  exact abs_le.1 (abs_le_one_iff_mul_self_le_one.2 h)

theorem pySlice_sublist {α : Type} (l : List α) (k : ℤ) :
    List.Sublist (pySlice l k) l := by
  unfold pySlice
  split
  · exact List.take_sublist _ _
  · exact List.take_sublist _ _

theorem chain'_pySlice {α : Type} {R : α → α → Prop} {l : List α}
    (h : List.Chain' R l) (k : ℤ) : List.Chain' R (pySlice l k) := by
  unfold pySlice
  split
  · exact h.take _
  · exact h.take _

theorem pySlice_length {α : Type} (l : List α) (k : ℤ) :
    (pySlice l k).length =
      if 0 ≤ k then min k.toNat l.length else l.length - (-k).toNat := by
  unfold pySlice
  split
  · simp [List.length_take]
  · simp only [List.length_take]
    exact Nat.min_eq_left (Nat.sub_le _ _)

theorem length_rowScores (rows : List Obj) (qv : Vec) :
    (rowScores rows qv).length = rows.length := by
  simp [rowScores]

theorem mem_scopeRows {store : List Obj} {ds : Option String} {io : Bool} {o : Obj}
    (h : o ∈ scopeRows store ds io) : o ∈ store ∧ o.embedding.isSome := by
  have := List.mem_filter.1 h
  refine ⟨this.1, ?_⟩
  have hb := this.2
  simp only [Bool.and_eq_true] at hb
  exact hb.1.1

/-! ### Canonical text as worded by the specification

The specification describes the canonical text as built from seven
prioritized fields - title, type, creator, culture, medium, classification,
category.  Mapped onto the source columns these are Title, ObjectName,
Artist/Maker (the creator concept has two source columns), Culture, Medium,
Classification and Department.  `specCanonicalText` renders the
specification's words - "the first non-empty value among each prioritized
field" - taking, for each field, the first non-empty value among its source
columns.  The separators (`" | "`, and `" "` in the fallback) are taken from
the source so that the only difference under test is first-versus-every. -/

def priorityGroupsSpec : List (List String) :=
  [["Title"], ["ObjectName"], ["Artist", "Maker"], ["Culture"], ["Medium"],
   ["Classification"], ["Department"]]

/-- First non-empty value among a field's source columns. -/
def firstNonEmptyVal (row : Row) (keys : List String) : Option String :=
  (keys.filterMap (fun k =>
    match rowGet row k with
    | some v => if v = "" then none else some v
    | none => none)).head?

/-- The canonical text as the claim words it: one (first non-empty) value per
prioritized field, with the all-non-empty-raw-values fallback. -/
def specCanonicalText (row : Row) : String :=
  let parts := priorityGroupsSpec.filterMap (firstNonEmptyVal row)
  if parts.isEmpty then String.intercalate " " (truthyVals row)
  else String.intercalate " | " parts

/-- The amended wording: the canonical text concatenates every non-empty
value among the prioritized source columns, in the fixed column order, with
the same fallback. -/
def specAmendedCanonicalText (row : Row) : String :=
  let parts := (priorityKeys.map (fun k => (rowGet row k).getD "")).filter (fun v => v ≠ "")
  if parts.isEmpty then String.intercalate " " (truthyVals row)
  else String.intercalate " | " parts

theorem intercalate_singleton (sep s : String) : String.intercalate sep [s] = s := rfl

theorem filterMap_nonEmpty_eq (row : Row) (keys : List String) :
    keys.filterMap (fun k =>
      match rowGet row k with
      | some v => if v = "" then none else some v
      | none => none) =
    (keys.map (fun k => (rowGet row k).getD "")).filter (fun v => v ≠ "") := by
  induction keys with
  | nil => rfl
  | cons k ks ih =>
    cases hk : rowGet row k with
    | none => simp [List.filterMap_cons, List.filter_cons, hk, ih]
    | some v =>
      by_cases hv : v = ""
      · simp [List.filterMap_cons, List.filter_cons, hk, hv, ih]
      · simp [List.filterMap_cons, List.filter_cons, hk, hv, ih]

/-! ### Concrete fixtures for counterexamples and witnesses -/

/-- A store object already embedded with the unit vector `[1, 0]`. -/
def obj1 : Obj :=
  { id := 1, object_uid := "d__1", dataset_id := "d", original_id := "1",
    title := some "A", artist := none, image_url := none, has_image := false,
    raw_metadata := [("Title", "A")], embedding := some [1, 0] }

/-- A one-object store whose single object is embedded. -/
def st1 : List Obj := [obj1]

/-- A pending object whose metadata values are all empty, so its canonical
text is the empty string. -/
def obj2 : Obj :=
  { id := 1, object_uid := "d__1", dataset_id := "d", original_id := "1",
    title := none, artist := none, image_url := none, has_image := false,
    raw_metadata := [("Title", ""), ("Artist", "")], embedding := none }

/-- A one-object store whose single object is pending with empty text. -/
def st2 : List Obj := [obj2]

/-- A model that embeds every text as the unit vector `[1, 0]`. -/
def constModel : Model := fun ts => some (ts.map (fun _ => ([1, 0] : Vec)))

/-- A model whose call always fails (raises in the Python source). -/
def mNone : Model := fun _ => none

/-- Two embedded objects with identical vectors; `objA` was inserted first. -/
def objA : Obj := { obj1 with id := 1, object_uid := "d__A" }

def objB : Obj := { obj1 with id := 2, object_uid := "d__B" }

def st4 : List Obj := [objA, objB]

/-! ### Claim theorems -/

/-- Claim C8: in every store state, and hence after every interleaving of
uploads and batch calls, `job_status` reports counts with
`embedded + remaining = total`.  The content is that `remaining` counts a
subset of the objects, so the truncated subtraction defining `embedded` is
exact. -/
theorem job_status_embedded_add_remaining (store : List Obj) :
    (job_status store).embedded + (job_status store).remaining =
      (job_status store).total := by
  show store.length - pendingCount store + pendingCount store = store.length
  exact Nat.sub_add_cancel (List.countP_le_length _)

/-- Claim C10: whenever no pending objects remain, `process_batch` returns
early with `embedded_this_batch = 0`, `remaining = 0`, `done = true` and a
hard-coded `total = 0` - regardless of how many objects the store holds -
while `job_status` on the same store reports the actual object count as
`total`. -/
theorem process_batch_empty_reports_zero_total (model : Model) (store : List Obj)
    (bs : ℕ) (h : pendingCount store = 0) :
    process_batch model store bs =
      (store, .ok { embedded_this_batch := 0, remaining := 0, total := 0,
                    done := true, example_object := none }) ∧
    (job_status store).total = store.length ∧
    (job_status store).remaining = 0 ∧
    (job_status store).embedded = store.length := by
  refine ⟨?_, rfl, h, ?_⟩
  · unfold process_batch
    rw [if_pos h]
  · show store.length - pendingCount store = store.length
    rw [h, Nat.sub_zero]

/-- Witness for C10: a store holding one embedded object.  `process_batch`
reports `total = 0` while `job_status` reports `total = 1`. -/
theorem process_batch_empty_reports_zero_total_witness :
    process_batch mNone st1 128 =
      (st1, .ok { embedded_this_batch := 0, remaining := 0, total := 0,
                  done := true, example_object := none }) ∧
    (job_status st1).total = 1 ∧
    (job_status st1).remaining = 0 ∧
    (job_status st1).embedded = 1 :=
  process_batch_empty_reports_zero_total mNone st1 128 (by decide)

/-- Claim C1, amended: `search_text` fails with `InvalidQuery` exactly when
the query is the literal empty string (Python `if not q`), and that check
precedes any store access (the fetch count of an empty-query call is zero).
A whitespace-only query is accepted, contrary to the claim - see the
counterexample. -/
theorem search_text_invalidQuery_iff (store : List Obj) (q : String) (qv : Vec)
    (limit : ℤ) (ds : Option String) (io : Bool) (perm : List ℕ) :
    (search_text store q qv limit ds io perm = .error .invalidQuery ↔ q = "") ∧
    searchFetchCount store "" ds io = 0 := by
  refine ⟨?_, rfl⟩
  by_cases hq : q = ""
  · simp [search_text, hq]
  · unfold search_text
    rw [if_neg hq]
    constructor
    · intro hcontra
      by_cases hr : (scopeRows store ds io).isEmpty
      · rw [if_pos hr] at hcontra
        cases hcontra
      · rw [if_neg hr] at hcontra
        cases hcontra
    · intro h
      exact absurd h hq

/-- Counterexample for C1: the whitespace-only query `"   "` (non-empty, all
characters whitespace, so it is empty after trimming) is not rejected: on a
store with one embedded object the search runs and returns a result, instead
of failing with `InvalidQuery` as the claim requires. -/
theorem search_text_whitespace_counterexample :
    "   ".toList ≠ [] ∧ (∀ c ∈ "   ".toList, c = ' ') ∧
    IsArgsortDesc (rowScores (scopeRows st1 none false) [1, 0]) [0] ∧
    search_text st1 "   " [1, 0] 20 none false [0] = .ok [(1, obj1)] := by
  refine ⟨by decide, by decide, ⟨List.Perm.refl _, List.chain'_singleton _⟩, ?_⟩
  norm_num [search_text, scopeRows, rowScores, dotQ, pySlice, st1, obj1]
  decide

/-- Claim C3, amended: there is no cache in the code.  Every `search_text`
call with a non-empty query runs the scoped SELECT and fetches every embedded
row in scope, and a sequence of such calls against an unchanged store fetches
the full scope once per call - a repeated search over an unchanged scope
re-scans the store. -/
theorem search_always_rescans (store : List Obj) (ds : Option String) (io : Bool) :
    (∀ q, q ≠ "" → searchFetchCount store q ds io = (scopeRows store ds io).length) ∧
    (∀ qs : List String, (∀ q ∈ qs, q ≠ "") →
      totalFetches store qs ds io = qs.length * (scopeRows store ds io).length) := by
  constructor
  · intro q hq
    simp [searchFetchCount, hq]
  · intro qs
    induction qs with
    | nil => intro _; simp [totalFetches]
    | cons q rest ih =>
      intro hqs
      have h1 : searchFetchCount store q ds io = (scopeRows store ds io).length := by
        simp [searchFetchCount, hqs q (by simp)]
      have h2 := ih (fun q' hq' => hqs q' (by simp [hq']))
      simp only [totalFetches, List.map_cons, List.sum_cons] at h2 ⊢
      rw [h1, h2, List.length_cons]
      ring

/-- Witness for C3's amended theorem at a concrete store and query list. -/
theorem search_always_rescans_witness :
    searchFetchCount st1 "cat" none false = (scopeRows st1 none false).length ∧
    totalFetches st1 ["cat", "cat"] none false = 2 * (scopeRows st1 none false).length :=
  ⟨(search_always_rescans st1 none false).1 "cat" (by decide),
   (search_always_rescans st1 none false).2 ["cat", "cat"] (by decide)⟩

/-- Counterexample for C3: on a one-object store, two identical searches over
an unchanged scope fetch one row each - two rows in total - whereas the
claimed cache hit would make the repeated call fetch nothing (one row in
total across both calls). -/
theorem search_repeated_fetch_counterexample :
    totalFetches st1 ["cat", "cat"] none false = 2 ∧
    searchFetchCount st1 "cat" none false = 1 := by
  exact ⟨by decide, by decide⟩

/-- Claim C6: each `process_batch` call is atomic.  If the response is the
model-failure error, the store is returned unchanged (the exception fires
before `conn.commit()`, so zero writes land); and whenever pending objects
exist, a failing model call yields exactly that error with the untouched
store, while a successful model call makes the whole batch's writes visible
at once - the resulting store is exactly the old store with the batch's
`(id, vector)` pairs applied. -/
theorem process_batch_atomicity (model : Model) (store : List Obj) (bs : ℕ) :
    ((process_batch model store bs).2 = .error .embeddingModelFailure →
      (process_batch model store bs).1 = store) ∧
    (pendingCount store ≠ 0 → model (batchTexts store bs) = none →
      process_batch model store bs = (store, .error .embeddingModelFailure)) ∧
    (∀ embs, pendingCount store ≠ 0 → model (batchTexts store bs) = some embs →
      (process_batch model store bs).1 =
        applyUpdates store (((batchRows store bs).map (fun o => o.id)).zip embs)) := by
  unfold process_batch
  by_cases h : pendingCount store = 0
  · simp only [if_pos h]
    refine ⟨?_, ?_, ?_⟩
    · intro hc
      exact nomatch hc
    · intro hp
      exact absurd h hp
    · intro embs hp
      exact absurd h hp
  · simp only [if_neg h]
    cases hm : model (batchTexts store bs) with
    | none =>
      refine ⟨?_, ?_, ?_⟩
      · intro hc
        rfl
      · intro hp hn
        rfl
      · intro embs hp hembs
        exact Option.noConfusion hembs
    | some embs0 =>
      refine ⟨?_, ?_, ?_⟩
      · intro hc
        exact nomatch hc
      · intro hp hnone
        exact Option.noConfusion hnone
      · intro embs hp hsome
        injection hsome with hsome
        rw [← hsome]

/-- Witness for C6: a failing model call on a store with one pending object
aborts with zero writes and the untouched store. -/
theorem process_batch_atomicity_witness :
    process_batch mNone st2 128 = (st2, .error .embeddingModelFailure) :=
  (process_batch_atomicity mNone st2 128).2.1 (by decide) rfl

/-- Claim C9, amended: the canonical text appends every present, non-empty
value among the prioritized source columns (Title, ObjectName, Artist, Maker,
Culture, Medium, Classification, Department) in that fixed order - in
particular both creator columns Artist and Maker when both are non-empty -
and falls back to joining all non-empty raw values when no prioritized column
contributes; the construction is a pure function of the row. -/
theorem build_object_text_spec (row : Row) :
    buildObjectText row = specAmendedCanonicalText row := by
  simp only [buildObjectText, specAmendedCanonicalText]
  rw [filterMap_nonEmpty_eq]
  by_cases h : ((priorityKeys.map (fun k => (rowGet row k).getD "")).filter
      (fun v => v ≠ "")).isEmpty
  · rw [if_pos h, if_pos h, intercalate_singleton]
  · rw [if_neg h, if_neg h]

/-- Counterexample for C9: a row carrying both creator columns.  The claim's
"first non-empty value among each prioritized field" yields `"X"` (the first
non-empty among Artist/Maker), but the code concatenates both values. -/
theorem build_object_text_counterexample :
    buildObjectText [("Artist", "X"), ("Maker", "Y")] = "X | Y" ∧
    specCanonicalText [("Artist", "X"), ("Maker", "Y")] = "X" ∧
    buildObjectText [("Artist", "X"), ("Maker", "Y")] ≠
      specCanonicalText [("Artist", "X"), ("Maker", "Y")] := by
  exact ⟨by decide, by decide, by decide⟩

/-- Claim C2, amended: `process_batch` does not skip objects whose canonical
text is empty.  Selection is by pending status only, so every selected object
- empty canonical text included - gets an embedding written whenever the
model call returns enough vectors: after the call the store contains an
object with the same id whose embedding is set. -/
theorem process_batch_embeds_empty_text (model : Model) (store : List Obj) (bs : ℕ)
    (embs : List Vec) (hm : model (batchTexts store bs) = some embs)
    (hlen : (batchRows store bs).length ≤ embs.length) :
    ∀ o ∈ batchRows store bs,
      ∃ o' ∈ (process_batch model store bs).1, o'.id = o.id ∧ o'.embedding.isSome := by
  intro o ho
  rcases mem_batchRows ho with ⟨hos, hono⟩
  have hpend : pendingCount store ≠ 0 := by
    have hpos : 0 < pendingCount store := List.countP_pos_iff.2 ⟨o, hos, by simp [hono]⟩
    omega
  unfold process_batch
  rw [if_neg hpend, hm]
  simp only
  rw [applyUpdates_eq_map]
  refine ⟨(((batchRows store bs).map (fun o => o.id)).zip embs).foldl applyUpd1 o,
    List.mem_map_of_mem _ hos, foldl_applyUpd1_id _ _, ?_⟩
  apply foldl_applyUpd1_isSome_of_mem
  rw [List.map_fst_zip]
  · exact List.mem_map_of_mem _ ho
  · rw [List.length_map]
    exact hlen

/-- Witness for C2's amended theorem: the empty-text pending object `obj2` is
selected and embedded. -/
theorem process_batch_embeds_empty_text_witness :
    buildObjectText obj2.raw_metadata = "" ∧
    ∃ o' ∈ (process_batch constModel st2 128).1, o'.id = obj2.id ∧ o'.embedding.isSome :=
  ⟨by decide,
   process_batch_embeds_empty_text constModel st2 128 [[1, 0]] rfl (by decide) obj2 (by decide)⟩

/-- The `example_object` preview produced for the batch of the C2
counterexample. -/
def exObj2 : ExampleObject :=
  { dataset_id := "d", original_id := "1", title := none, artist := none,
    image_url := none, has_image := false, preview_text := "",
    metadata := [("Title", ""), ("Artist", "")] }

/-- Counterexample for C2: a pending object whose canonical text is empty
after trimming is not skipped.  `process_batch` embeds it: afterwards its
embedding is set, the pending count is zero (it did not remain pending), and
the report counts it as embedded. -/
theorem process_batch_skips_nothing_counterexample :
    buildObjectText obj2.raw_metadata = "" ∧
    (process_batch constModel st2 128).1 = [{ obj2 with embedding := some [1, 0] }] ∧
    pendingCount (process_batch constModel st2 128).1 = 0 ∧
    (process_batch constModel st2 128).2 =
      .ok { embedded_this_batch := 1, remaining := 0, total := 1, done := true,
            example_object := some exObj2 } := by
  exact ⟨by decide, by decide, by decide, by decide⟩

/-- Claim C7: embeddings are monotone.  In any store with unique ids, (a) an
object whose embedding is set survives a `process_batch` call verbatim -
never overwritten, never reset to null; (b) the selected batch has pairwise
distinct ids, so no object is selected twice within one invocation; (c) every
selected object is pending at call time (selection re-evaluates the store);
and (d) across any sequence of `process_batch` calls an embedded object is
preserved verbatim, so the null-to-vector transition happens at most once. -/
theorem process_batch_monotone_embedding (model : Model) (store : List Obj) (bs : ℕ)
    (hnodup : (store.map (fun o => o.id)).Nodup) :
    (∀ o ∈ store, o.embedding.isSome → o ∈ (process_batch model store bs).1) ∧
    ((batchRows store bs).map (fun o => o.id)).Nodup ∧
    (∀ o ∈ batchRows store bs, o.embedding = none) ∧
    (∀ calls : List (Model × ℕ), ∀ o ∈ store, o.embedding.isSome →
      o ∈ runBatches store calls) :=
  ⟨fun o ho hs => process_batch_preserves_embedded hnodup ho hs,
   batchRows_ids_nodup bs hnodup,
   fun o ho => (mem_batchRows ho).2,
   fun calls o ho hs => runBatches_preserves_embedded hnodup calls ho hs⟩

/-- Witness for C7: the embedded object `obj1` survives one call and a
one-call sequence untouched. -/
theorem process_batch_monotone_embedding_witness :
    obj1 ∈ (process_batch constModel st1 3).1 ∧ obj1 ∈ runBatches st1 [(constModel, 3)] :=
  ⟨(process_batch_monotone_embedding constModel st1 3 (by decide)).1 obj1
      (List.mem_cons_self _ _) rfl,
   (process_batch_monotone_embedding constModel st1 3 (by decide)).2.2.2 [(constModel, 3)] obj1
      (List.mem_cons_self _ _) rfl⟩

/-- Counterexample for C5: a negative `k` does not yield an empty list.
Python's slice `[:k]` drops the last `-k` elements, so on a two-row scope a
search with `k = -1` returns one result even though `k ≤ 0`. -/
theorem search_text_negative_k_counterexample :
    IsArgsortDesc (rowScores (scopeRows st4 none false) [1, 0]) [0, 1] ∧
    ((-1 : ℤ) ≤ 0) ∧
    search_text st4 "cat" [1, 0] (-1) none false [0, 1] = .ok [(1, objA)] := by
  refine ⟨⟨List.Perm.refl _, ?_⟩, by decide, ?_⟩
  · norm_num [rowScores, scopeRows, dotQ, st4, objA, objB, obj1,
      List.chain'_cons, List.chain'_singleton]
  · norm_num [search_text, scopeRows, rowScores, dotQ, pySlice, st4, objA, objB, obj1]
    decide

/-- Claim C5, amended: for non-negative `k` the result length is `k` clamped
to the number of embedded rows in scope (so at most `k`, and `k = 0` gives an
empty list); but a negative `k` follows Python slice semantics and returns
the top `n - (-k)` results instead of an empty list - see the
counterexample. -/
theorem search_text_result_length (store : List Obj) (q : String) (qv : Vec)
    (limit : ℤ) (ds : Option String) (io : Bool) (perm : List ℕ)
    (res : List (ℚ × Obj)) (hq : q ≠ "")
    (hperm : List.Perm perm (List.range (scopeRows store ds io).length))
    (hres : search_text store q qv limit ds io perm = .ok res) :
    res.length = (if 0 ≤ limit then min limit.toNat (scopeRows store ds io).length
                  else (scopeRows store ds io).length - (-limit).toNat) ∧
    (0 ≤ limit → res.length ≤ limit.toNat) ∧
    res.length ≤ (scopeRows store ds io).length ∧
    (limit = 0 → res = []) := by
  unfold search_text at hres
  rw [if_neg hq] at hres
  by_cases hr : (scopeRows store ds io).isEmpty
  · rw [if_pos hr] at hres
    injection hres with hres
    rw [← hres]
    have hlen0 : (scopeRows store ds io).length = 0 := by
      rw [List.isEmpty_iff.1 hr]
      rfl
    rw [hlen0]
    refine ⟨by simp, by simp, by simp, fun _ => rfl⟩
  · rw [if_neg hr] at hres
    injection hres with hres
    rw [← hres]
    have hplen : perm.length = (scopeRows store ds io).length := by
      have h := hperm.length_eq
      simpa using h
    rw [List.length_map, pySlice_length, hplen]
    refine ⟨rfl, ?_, ?_, ?_⟩
    · intro hpos
      rw [if_pos hpos]
      exact min_le_left _ _
    · by_cases hpos : 0 ≤ limit
      · rw [if_pos hpos]
        exact min_le_right _ _
      · rw [if_neg hpos]
        exact Nat.sub_le _ _
    · intro h0
      subst h0
      simp [pySlice]

/-- Witness for C5's amended theorem: requesting `k = 5` from a two-row scope
returns both rows (clamped), at most five, and the `k = 0` clause is vacuous. -/
theorem search_text_result_length_witness :
    ([((1:ℚ), objA), ((1:ℚ), objB)] : List (ℚ × Obj)).length =
      (if 0 ≤ (5:ℤ) then min (5:ℤ).toNat (scopeRows st4 none false).length
       else (scopeRows st4 none false).length - (-(5:ℤ)).toNat) ∧
    ((0:ℤ) ≤ 5 → ([((1:ℚ), objA), ((1:ℚ), objB)] : List (ℚ × Obj)).length ≤ (5:ℤ).toNat) ∧
    ([((1:ℚ), objA), ((1:ℚ), objB)] : List (ℚ × Obj)).length ≤ (scopeRows st4 none false).length ∧
    ((5:ℤ) = 0 → ([((1:ℚ), objA), ((1:ℚ), objB)] : List (ℚ × Obj)) = []) :=
  search_text_result_length st4 "cat" [1, 0] 5 none false [0, 1]
    [((1:ℚ), objA), ((1:ℚ), objB)] (by decide) (List.Perm.refl _)
    (by norm_num [search_text, scopeRows, rowScores, dotQ, pySlice, st4, objA, objB, obj1]
        decide)

/-- Counterexample for C4: the source calls `argsort(descending=True)`
without the `stable` flag, so with two equal scores both index orders are
admissible outputs.  The order `[1, 0]` is a valid descending argsort of the
scores `[1, 1]`, yet the returned list places the later-inserted `objB`
(id 2) before `objA` (id 1), violating the claimed earliest-insertion
tie-break. -/
theorem search_text_tiebreak_counterexample :
    IsArgsortDesc (rowScores (scopeRows st4 none false) [1, 0]) [1, 0] ∧
    search_text st4 "cat" [1, 0] 20 none false [1, 0] = .ok [(1, objB), (1, objA)] ∧
    objA.id < objB.id ∧
    ¬ DescWithInsertionTieBreak [((1:ℚ), objB), ((1:ℚ), objA)] := by
  refine ⟨⟨List.Perm.swap 0 1 [], ?_⟩, ?_, by decide, ?_⟩
  · norm_num [rowScores, scopeRows, dotQ, st4, objA, objB, obj1,
      List.chain'_cons, List.chain'_singleton]
  · norm_num [search_text, scopeRows, rowScores, dotQ, pySlice, st4, objA, objB, obj1]
    decide
  · intro hchain
    have hrel := (List.chain'_cons.1 hchain).1
    rcases hrel with hlt | ⟨heq, hid⟩
    · exact lt_irrefl _ hlt
    · exact absurd hid (by decide)

/-- Claim C4, amended: for every admissible argsort output the returned
scores are non-increasing, and when all stored embeddings and the query
embedding are unit-norm every returned score lies in `[-1, 1]`; the order of
results with equal scores is unspecified (unstable argsort) - see the
counterexample. -/
theorem search_text_scores_sorted_bounded (store : List Obj) (q : String) (qv : Vec)
    (limit : ℤ) (ds : Option String) (io : Bool) (perm : List ℕ)
    (res : List (ℚ × Obj)) (hq : q ≠ "")
    (hperm : IsArgsortDesc (rowScores (scopeRows store ds io) qv) perm)
    (hres : search_text store q qv limit ds io perm = .ok res)
    (hnorm : ∀ o ∈ store, o.embedding = none ∨
      dotQ (o.embedding.getD []) (o.embedding.getD []) = 1)
    (hqnorm : dotQ qv qv = 1) :
    List.Chain' (fun a b : ℚ × Obj => b.1 ≤ a.1) res ∧
    (∀ p ∈ res, -1 ≤ p.1 ∧ p.1 ≤ 1) := by
  unfold search_text at hres
  rw [if_neg hq] at hres
  by_cases hr : (scopeRows store ds io).isEmpty
  · rw [if_pos hr] at hres
    injection hres with hres
    rw [← hres]
    exact ⟨List.chain'_nil, by simp⟩
  · rw [if_neg hr] at hres
    injection hres with hres
    rw [← hres]
    constructor
    · rw [List.chain'_map]
      exact chain'_pySlice hperm.2 limit
    · intro p hp
      rcases List.mem_map.1 hp with ⟨i, hi, rfl⟩
      have hiperm : i ∈ perm := (pySlice_sublist perm limit).subset hi
      have hirange : i ∈ List.range ((rowScores (scopeRows store ds io) qv).length) :=
        (hperm.1.mem_iff).1 hiperm
      have hilt : i < (scopeRows store ds io).length := by
        rw [length_rowScores] at hirange
        exact List.mem_range.1 hirange
      have hscore : (rowScores (scopeRows store ds io) qv).getD i 0 =
          dotQ (((scopeRows store ds io).get ⟨i, hilt⟩).embedding.getD []) qv := by
        rw [rowScores, List.getD_eq_getElem?_getD, List.getElem?_map,
          List.getElem?_eq_getElem hilt]
        rfl
      have homem : (scopeRows store ds io).get ⟨i, hilt⟩ ∈ scopeRows store ds io :=
        List.get_mem _ _ hilt
      rcases mem_scopeRows homem with ⟨hostore, hosome⟩
      rcases hnorm _ hostore with hnone | hunit
      · rw [hnone] at hosome
        simp at hosome
      · show -1 ≤ (rowScores (scopeRows store ds io) qv).getD i 0 ∧
          (rowScores (scopeRows store ds io) qv).getD i 0 ≤ 1
        rw [hscore]
        exact dotQ_mem_Icc_of_unit hunit hqnorm

/-- Witness for C4's amended theorem on a one-row store with unit vectors. -/
theorem search_text_scores_sorted_bounded_witness :
    List.Chain' (fun a b : ℚ × Obj => b.1 ≤ a.1) [((1:ℚ), obj1)] ∧
    (∀ p ∈ [((1:ℚ), obj1)], -1 ≤ p.1 ∧ p.1 ≤ 1) :=
  search_text_scores_sorted_bounded st1 "cat" [1, 0] 20 none false [0] [((1:ℚ), obj1)]
    (by decide) ⟨List.Perm.refl _, List.chain'_singleton _⟩
    (by norm_num [search_text, scopeRows, rowScores, dotQ, pySlice, st1, obj1]
        decide)
    (by intro o ho
        simp only [st1, List.mem_singleton] at ho
        subst ho
        right
        norm_num [obj1, dotQ])
    (by norm_num [dotQ])

end ArtVector
